import Mathlib

/-!
Verification of the centipod monorepo task orchestrator core
(MarioArnt/centipod) against its natural-language specification.

Every definition below is a shallow embedding of a function of the
TypeScript source; the source file and method are named in the doc
comment of each definition.  IO, child processes and the rxjs streams
are embedded as explicit data: outcomes of asynchronous calls become
oracle parameters, and the event stream produced by a run becomes a
`List RunCommandEvent` plus a terminal notification.  Within a step the
source settles tasks concurrently (mergeAll with a concurrency cap);
the embedding serialises a step by the order of its task list, which
ranges over all settlement orders because the step list is universally
quantified in every theorem.
-/

set_option maxHeartbeats 1000000

namespace Centipod

/-- Workspaces are identified by their package name (`workspace.name`). -/
abbrev WorkspaceName := String

/-- `IResolvedTarget` of `src/core/src/process.ts`: a workspace selected by
the targets resolver, with its `affected` and `hasCommand` flags. -/
structure RTarget where
  workspace : WorkspaceName
  affected : Bool
  hasCommand : Bool
deriving DecidableEq, Repr

/-- The two scheduling modes of `RunOptions.mode` in `src/core/src/runner.ts`. -/
inductive Mode
  | parallel
  | topological
deriving DecidableEq, Repr

/-- Result of one settled task: `ok fromCache` models a resolved
`IProcessResult` with its `fromCache` flag, `ko` a rejected run. -/
inductive ExecStatus
  | ok (fromCache : Bool)
  | ko
deriving DecidableEq, Repr

/-- `CaughtProcessExecution` of `src/core/src/runner.ts` (final version,
lines 584-586): a settled execution together with its target. -/
structure CaughtProcessExecution where
  target : RTarget
  status : ExecStatus
deriving DecidableEq, Repr

/-- `isFailedExecution` of `src/core/src/runner.ts`. -/
def CaughtProcessExecution.isFailed (e : CaughtProcessExecution) : Bool :=
  match e.status with
  | .ko => true
  | .ok _ => false

/-- A successful execution whose result was not taken from the cache;
`!execution.result.fromCache` in `Runner._runStep`. -/
def CaughtProcessExecution.rebuilt (e : CaughtProcessExecution) : Bool :=
  match e.status with
  | .ok fromCache => !fromCache
  | .ko => false

/-- `RunCommandEvent` of `src/core/src/process.ts`, with the payloads the
claims need (workspace names and the `fromCache` flag). -/
inductive RunCommandEvent
  | targetsResolved (targets : List RTarget)
  | nodeStarted (w : WorkspaceName)
  | nodeProcessed (w : WorkspaceName) (fromCache : Bool)
  | nodeErrored (w : WorkspaceName)
  | nodeSkipped (w : WorkspaceName) (affected : Bool) (hasCommand : Bool)
  | cacheInvalidated (w : WorkspaceName)
  | errorInvalidatingCache (w : WorkspaceName)
deriving DecidableEq, Repr

/-- How the observable returned by `Runner.runCommand` terminates:
`complete`, or `error` with a `NODE_ERRORED` payload, or `error` with an
`ERROR_INVALIDATING_CACHE` payload. -/
inductive Terminal
  | completed
  | erroredNode (w : WorkspaceName)
  | erroredInvalidating (w : WorkspaceName)
deriving DecidableEq, Repr

/-- Accumulated output of the per-task phase of `Runner._runStep`: the
events emitted by the merged task observables, the `executions` set in
insertion order, and the error that tore the merge down, if any. -/
structure StepBody where
  events : List RunCommandEvent
  executions : List CaughtProcessExecution
  errored : Option CaughtProcessExecution
deriving Repr

namespace Runner

/-- The per-task phase of `Runner._runStep` (final version of
`src/core/src/runner.ts`, lines 718-723 and 781-842).  Each target of the
step is handled by `Runner._runForWorkspace`: a target that is not
`affected` or has no command emits `NODE_SKIPPED`; otherwise `NODE_STARTED`
is emitted, the execution settles with `outcome t`, is added to the
`executions` set, and is mapped by
`Runner._mapToEventsAndInvalidateCacheIfNecessary` to `NODE_PROCESSED`
(resolved), to a `NODE_ERRORED` next-notification (rejected, parallel
mode) or to a `NODE_ERRORED` error-notification that tears the merged
step down (rejected, topological mode): remaining tasks of the step are
then never subscribed.  The settlement order of the concurrent tasks is
the order of the `step` list. -/
def runStepBody (mode : Mode) (outcome : RTarget → ExecStatus) :
    List RTarget → StepBody
  | [] => ⟨[], [], none⟩
  | t :: rest =>
    if t.affected && t.hasCommand then
      match outcome t with
      | .ok fromCache =>
        let r := runStepBody mode outcome rest
        ⟨.nodeStarted t.workspace :: .nodeProcessed t.workspace fromCache :: r.events,
          ⟨t, .ok fromCache⟩ :: r.executions, r.errored⟩
      | .ko =>
        match mode with
        | .topological =>
          ⟨[.nodeStarted t.workspace], [⟨t, .ko⟩], some ⟨t, .ko⟩⟩
        | .parallel =>
          let r := runStepBody mode outcome rest
          ⟨.nodeStarted t.workspace :: .nodeErrored t.workspace :: r.events,
            ⟨t, .ko⟩ :: r.executions, r.errored⟩
    else
      let r := runStepBody mode outcome rest
      ⟨.nodeSkipped t.workspace t.affected t.hasCommand :: r.events,
        r.executions, r.errored⟩

/-- Loop of `Runner._invalidateSubsequentWorkspaceCache`
(`src/core/src/runner.ts` lines 853-865): walk the ordered steps with an
`isAfterCurrent` flag, collecting the workspaces of every step strictly
after the first step that contains `current`. -/
def subsequentWorkspacesGo (current : RTarget) :
    List (List RTarget) → Bool → List WorkspaceName
  | [], _ => []
  | stp :: rest, isAfterCurrent =>
    (if isAfterCurrent then stp.map (·.workspace) else []) ++
      subsequentWorkspacesGo current rest (isAfterCurrent || stp.contains current)

/-- `Runner._invalidateSubsequentWorkspaceCache` (lines 853-865), as the
list of workspaces whose cache it invalidates, in emission order. -/
def subsequentWorkspaces (targets : List (List RTarget)) (current : RTarget) :
    List WorkspaceName :=
  subsequentWorkspacesGo current targets false

/-- `resolveInvalidations$` inside `Runner._runStep` (lines 725-747), as
the list of workspaces to invalidate, in emission order: one invalidation
per failed execution, followed, in topological mode when some execution
failed or was rebuilt and the executions set is non-empty, by the
invalidation of every workspace of the strictly subsequent steps
(`current` is the target of the last execution iterated). -/
def resolveInvalidations (mode : Mode) (targets : List (List RTarget))
    (executions : List CaughtProcessExecution) : List WorkspaceName :=
  let erroredWs := (executions.filter (·.isFailed)).map (·.target.workspace)
  let hasAtLeastOneError := executions.any (·.isFailed)
  let cachedInvalidated := executions.any (·.rebuilt)
  match mode, executions.getLast? with
  | .topological, some lastExec =>
    if hasAtLeastOneError || cachedInvalidated then
      erroredWs ++ subsequentWorkspaces targets lastExec.target
    else erroredWs
  | _, _ => erroredWs

/-- Running the invalidation observables (`Runner._invalidateCache`,
lines 844-851, sequenced by `concatAll`): each successful
`workspace.invalidate` emits `CACHE_INVALIDATED`; the first failing one
raises `ERROR_INVALIDATING_CACHE` and stops the sequence.  `invOk w`
tells whether `w.invalidate(cmd)` resolves. -/
def runInvalidations (invOk : WorkspaceName → Bool) :
    List WorkspaceName → List RunCommandEvent × Option WorkspaceName
  | [] => ([], none)
  | w :: rest =>
    if invOk w then
      let r := runInvalidations invOk rest
      (.cacheInvalidated w :: r.1, r.2)
    else ([], some w)

/-- Events and terminal notification of one step. -/
structure StepResult where
  events : List RunCommandEvent
  terminal : Terminal
deriving Repr

/-- `Runner._runStep` (final version, lines 708-779).  The merged task
observables run first; when they error with a `NODE_ERRORED` payload the
subscriber re-emits that payload as a next-notification, runs the
invalidations and then errors with the original payload; when they
complete the subscriber runs the invalidations and completes.  A failing
invalidation re-emits `ERROR_INVALIDATING_CACHE` as a next-notification
and errors with it. -/
def runStep (mode : Mode) (targets : List (List RTarget)) (step : List RTarget)
    (outcome : RTarget → ExecStatus) (invOk : WorkspaceName → Bool) : StepResult :=
  let body := runStepBody mode outcome step
  let invs := resolveInvalidations mode targets body.executions
  let ran := runInvalidations invOk invs
  match body.errored with
  | some e =>
    match ran.2 with
    | some w =>
      ⟨body.events ++ [.nodeErrored e.target.workspace] ++ ran.1 ++
          [.errorInvalidatingCache w], .erroredInvalidating w⟩
    | none =>
      ⟨body.events ++ [.nodeErrored e.target.workspace] ++ ran.1,
        .erroredNode e.target.workspace⟩
  | none =>
    match ran.2 with
    | some w =>
      ⟨body.events ++ ran.1 ++ [.errorInvalidatingCache w], .erroredInvalidating w⟩
    | none => ⟨body.events ++ ran.1, .completed⟩

/-- `Runner._scheduleTasks` (lines 609-619): the steps are concatenated by
`concatAll`, so a step observable is subscribed only after the previous
one completed; an error stops the concatenation. -/
def runStepList (mode : Mode) (targets : List (List RTarget))
    (outcome : RTarget → ExecStatus) (invOk : WorkspaceName → Bool) :
    List (List RTarget) → StepResult
  | [] => ⟨[], .completed⟩
  | step :: rest =>
    let r := runStep mode targets step outcome invOk
    match r.terminal with
    | .completed =>
      let r2 := runStepList mode targets outcome invOk rest
      ⟨r.events ++ r2.events, r2.terminal⟩
    | t => ⟨r.events, t⟩

/-- `Runner.runCommand` without watch mode (lines 621-636): emit
`TARGETS_RESOLVED` with the flattened plan, complete at once on an empty
plan, otherwise forward the scheduled tasks. -/
def runCommand (mode : Mode) (targets : List (List RTarget))
    (outcome : RTarget → ExecStatus) (invOk : WorkspaceName → Bool) : StepResult :=
  if targets.isEmpty then ⟨[.targetsResolved targets.flatten], .completed⟩
  else
    let r := runStepList mode targets outcome invOk targets
    ⟨.targetsResolved targets.flatten :: r.events, r.terminal⟩

/-- Every settled execution of a step belongs to the step. -/
theorem mem_step_of_mem_executions (mode : Mode) (outcome : RTarget → ExecStatus) :
    ∀ (step : List RTarget) (e : CaughtProcessExecution),
      e ∈ (runStepBody mode outcome step).executions → e.target ∈ step := by
  intro step
  induction step with
  | nil => intro e he; simp [runStepBody] at he
  | cons t rest ih =>
    intro e he
    by_cases hx : t.affected && t.hasCommand
    · rcases hout : outcome t with fromCache | _
      · simp only [runStepBody, hx, if_true, hout] at he
        rcases List.mem_cons.mp he with h | h
        · subst h; exact List.mem_cons_self _ _
        · exact List.mem_cons_of_mem _ (ih e h)
      · cases mode with
        | topological =>
          simp only [runStepBody, hx, if_true, hout] at he
          rcases List.mem_singleton.mp he with h
          subst h; exact List.mem_cons_self _ _
        | parallel =>
          simp only [runStepBody, hx, if_true, hout] at he
          rcases List.mem_cons.mp he with h | h
          · subst h; exact List.mem_cons_self _ _
          · exact List.mem_cons_of_mem _ (ih e h)
    · simp only [runStepBody, hx, if_false] at he
      exact List.mem_cons_of_mem _ (ih e he)

/-- When the flag is already set, the loop of
`_invalidateSubsequentWorkspaceCache` collects every remaining workspace. -/
theorem subsequentWorkspacesGo_true (current : RTarget) :
    ∀ steps : List (List RTarget),
      subsequentWorkspacesGo current steps true = steps.flatten.map (·.workspace) := by
  intro steps
  induction steps with
  | nil => simp [subsequentWorkspacesGo]
  | cons stp rest ih => simp [subsequentWorkspacesGo, ih]

/-- If `current` belongs to `step`, then every workspace of a strictly
subsequent step is collected by `_invalidateSubsequentWorkspaceCache`,
whatever steps precede `step` in the plan. -/
theorem mem_subsequentWorkspaces (current : RTarget) (step : List RTarget)
    (post : List (List RTarget)) (hcur : current ∈ step) :
    ∀ (pre : List (List RTarget)) (b : Bool) (t : RTarget), t ∈ post.flatten →
      t.workspace ∈ subsequentWorkspacesGo current (pre ++ step :: post) b := by
  intro pre
  induction pre with
  | nil =>
    intro b t ht
    have hc : step.contains current = true := List.elem_eq_true_of_mem hcur
    simp only [List.nil_append, subsequentWorkspacesGo, hc, Bool.or_true]
    rw [subsequentWorkspacesGo_true]
    exact List.mem_append_right _ (List.mem_map_of_mem _ ht)
  | cons p pre' ih =>
    intro b t ht
    simp only [List.cons_append, subsequentWorkspacesGo]
    exact List.mem_append_right _ (ih _ t ht)

/-- When every `workspace.invalidate` resolves, the invalidation sequence
emits one `CACHE_INVALIDATED` per workspace and no error. -/
theorem runInvalidations_all_ok :
    ∀ ws : List WorkspaceName,
      runInvalidations (fun _ => true) ws = (ws.map RunCommandEvent.cacheInvalidated, none) := by
  intro ws
  induction ws with
  | nil => rfl
  | cons w rest ih => simp [runInvalidations, ih]

/-- When the merged tasks of a step error, the error is the last settled
execution: it failed, it is in the executions set (which is non-empty and
ends with it), and its target belongs to the step. -/
theorem errored_spec (outcome : RTarget → ExecStatus) :
    ∀ (step : List RTarget) (e : CaughtProcessExecution),
      (runStepBody .topological outcome step).errored = some e →
        (runStepBody .topological outcome step).executions.getLast? = some e ∧
          e.isFailed = true ∧ e ∈ (runStepBody .topological outcome step).executions := by
  intro step
  induction step with
  | nil => intro e he; simp [runStepBody] at he
  | cons t rest ih =>
    intro e he
    by_cases hx : t.affected && t.hasCommand
    · rcases hout : outcome t with fromCache | _
      · simp only [runStepBody, hx, if_true, hout] at he ⊢
        obtain ⟨h1, h2, h3⟩ := ih e he
        refine ⟨?_, h2, List.mem_cons_of_mem _ h3⟩
        rw [List.getLast?_cons, h1]
        rfl
      · simp only [runStepBody, hx, if_true, hout] at he ⊢
        cases he
        refine ⟨rfl, rfl, List.mem_singleton.mpr rfl⟩
    · simp only [runStepBody, hx, if_false] at he ⊢
      exact ih e he

/-- Every `NODE_STARTED` emitted in the body of a step names a workspace
of a target of the step. -/
theorem started_mem_step (mode : Mode) (outcome : RTarget → ExecStatus) :
    ∀ (step : List RTarget) (w : WorkspaceName),
      RunCommandEvent.nodeStarted w ∈ (runStepBody mode outcome step).events →
        ∃ t ∈ step, t.workspace = w := by
  intro step
  induction step with
  | nil => intro w hw; simp [runStepBody] at hw
  | cons t rest ih =>
    intro w hw
    by_cases hx : t.affected && t.hasCommand
    · rcases hout : outcome t with fromCache | _
      · simp only [runStepBody, hx, if_true, hout] at hw
        rcases List.mem_cons.mp hw with h | h
        · cases h; exact ⟨t, List.mem_cons_self _ _, rfl⟩
        · rcases List.mem_cons.mp h with h2 | h2
          · cases h2
          · obtain ⟨t2, ht2, hwt⟩ := ih w h2
            exact ⟨t2, List.mem_cons_of_mem _ ht2, hwt⟩
      · cases mode with
        | topological =>
          simp only [runStepBody, hx, if_true, hout] at hw
          rcases List.mem_singleton.mp hw with h
          cases h; exact ⟨t, List.mem_cons_self _ _, rfl⟩
        | parallel =>
          simp only [runStepBody, hx, if_true, hout] at hw
          rcases List.mem_cons.mp hw with h | h
          · cases h; exact ⟨t, List.mem_cons_self _ _, rfl⟩
          · rcases List.mem_cons.mp h with h2 | h2
            · cases h2
            · obtain ⟨t2, ht2, hwt⟩ := ih w h2
              exact ⟨t2, List.mem_cons_of_mem _ ht2, hwt⟩
    · simp only [runStepBody, hx, if_false] at hw
      rcases List.mem_cons.mp hw with h | h
      · cases h
      · obtain ⟨t2, ht2, hwt⟩ := ih w h
        exact ⟨t2, List.mem_cons_of_mem _ ht2, hwt⟩

/-- The last element reported by `List.getLast?` belongs to the list. -/
theorem mem_of_getLastOpt {α : Type} :
    ∀ (l : List α) (a : α), l.getLast? = some a → a ∈ l := by
  intro l
  induction l with
  | nil => intro a h; cases h
  | cons x xs ih =>
    intro a h
    rw [List.getLast?_cons] at h
    cases hx : xs.getLast? with
    | none =>
      rw [hx] at h
      cases h
      exact List.mem_cons_self _ _
    | some b =>
      rw [hx] at h
      cases h
      exact List.mem_cons_of_mem _ (ih b hx)

/-- A non-empty list has a last element. -/
theorem getLastOpt_of_ne_nil {α : Type} :
    ∀ (l : List α), l ≠ [] → ∃ a, l.getLast? = some a := by
  intro l h
  cases l with
  | nil => exact absurd rfl h
  | cons x xs => exact ⟨_, List.getLast?_cons⟩

/-- In parallel mode the merged task observables never error:
`_mapToEventsAndInvalidateCacheIfNecessary` emits `NODE_ERRORED` as a
next-notification. -/
theorem parallel_errored_none (outcome : RTarget → ExecStatus) :
    ∀ step : List RTarget, (runStepBody .parallel outcome step).errored = none := by
  intro step
  induction step with
  | nil => rfl
  | cons t rest ih =>
    by_cases hx : t.affected && t.hasCommand
    · rcases hout : outcome t with fromCache | _ <;>
        simp only [runStepBody, hx, if_true, hout] <;> exact ih
    · simp only [runStepBody, hx, if_false]
      exact ih

/-- A failing executable task of a parallel step yields a `NODE_ERRORED`
event and a failed entry in the executions set. -/
theorem parallel_ko_events (outcome : RTarget → ExecStatus) :
    ∀ (step : List RTarget) (t : RTarget), t ∈ step →
      t.affected = true → t.hasCommand = true → outcome t = .ko →
        RunCommandEvent.nodeErrored t.workspace ∈ (runStepBody .parallel outcome step).events ∧
          (⟨t, .ko⟩ : CaughtProcessExecution) ∈ (runStepBody .parallel outcome step).executions := by
  intro step
  induction step with
  | nil => intro t ht; cases ht
  | cons hd rest ih =>
    intro t ht ha hc hko
    rcases List.mem_cons.mp ht with h | h
    · subst h
      have hx : t.affected && t.hasCommand := by rw [ha, hc]; rfl
      simp only [runStepBody, hx, if_true, hko]
      exact ⟨List.mem_cons_of_mem _ (List.mem_cons_self _ _), List.mem_cons_self _ _⟩
    · by_cases hx : hd.affected && hd.hasCommand
      · rcases hout : outcome hd with fromCache | _
        · simp only [runStepBody, hx, if_true, hout]
          obtain ⟨h1, h2⟩ := ih t h ha hc hko
          exact ⟨List.mem_cons_of_mem _ (List.mem_cons_of_mem _ h1),
            List.mem_cons_of_mem _ h2⟩
        · simp only [runStepBody, hx, if_true, hout]
          obtain ⟨h1, h2⟩ := ih t h ha hc hko
          exact ⟨List.mem_cons_of_mem _ (List.mem_cons_of_mem _ h1),
            List.mem_cons_of_mem _ h2⟩
      · simp only [runStepBody, hx, if_false]
        obtain ⟨h1, h2⟩ := ih t h ha hc hko
        exact ⟨List.mem_cons_of_mem _ h1, h2⟩

/-- A resolving executable task of a parallel step yields its
`NODE_PROCESSED` event. -/
theorem parallel_ok_events (outcome : RTarget → ExecStatus) :
    ∀ (step : List RTarget) (t : RTarget), t ∈ step →
      t.affected = true → t.hasCommand = true → ∀ fromCache, outcome t = .ok fromCache →
        RunCommandEvent.nodeProcessed t.workspace fromCache
          ∈ (runStepBody .parallel outcome step).events := by
  intro step
  induction step with
  | nil => intro t ht; cases ht
  | cons hd rest ih =>
    intro t ht ha hc fromCache hok
    rcases List.mem_cons.mp ht with h | h
    · subst h
      have hx : t.affected && t.hasCommand := by rw [ha, hc]; rfl
      simp only [runStepBody, hx, if_true, hok]
      exact List.mem_cons_of_mem _ (List.mem_cons_self _ _)
    · by_cases hx : hd.affected && hd.hasCommand
      · rcases hout : outcome hd with fc2 | _ <;>
          simp only [runStepBody, hx, if_true, hout] <;>
          exact List.mem_cons_of_mem _ (List.mem_cons_of_mem _ (ih t h ha hc fromCache hok))
      · simp only [runStepBody, hx, if_false]
        exact List.mem_cons_of_mem _ (ih t h ha hc fromCache hok)

/-- The body of a step emits no `CACHE_INVALIDATED` event: those are
produced only by the invalidation phase. -/
theorem body_no_invalidation (mode : Mode) (outcome : RTarget → ExecStatus) :
    ∀ (step : List RTarget) (ev : RunCommandEvent),
      ev ∈ (runStepBody mode outcome step).events →
        ∀ w, ev ≠ RunCommandEvent.cacheInvalidated w := by
  intro step
  induction step with
  | nil => intro ev hev; simp [runStepBody] at hev
  | cons t rest ih =>
    intro ev hev w
    by_cases hx : t.affected && t.hasCommand
    · rcases hout : outcome t with fromCache | _
      · simp only [runStepBody, hx, if_true, hout] at hev
        rcases List.mem_cons.mp hev with h | h
        · subst h; intro hcon; cases hcon
        · rcases List.mem_cons.mp h with h2 | h2
          · subst h2; intro hcon; cases hcon
          · exact ih ev h2 w
      · cases mode with
        | topological =>
          simp only [runStepBody, hx, if_true, hout] at hev
          rcases List.mem_singleton.mp hev with h
          subst h; intro hcon; cases hcon
        | parallel =>
          simp only [runStepBody, hx, if_true, hout] at hev
          rcases List.mem_cons.mp hev with h | h
          · subst h; intro hcon; cases hcon
          · rcases List.mem_cons.mp h with h2 | h2
            · subst h2; intro hcon; cases hcon
            · exact ih ev h2 w
    · simp only [runStepBody, hx, if_false] at hev
      rcases List.mem_cons.mp hev with h | h
      · subst h; intro hcon; cases hcon
      · exact ih ev h w

/-- The tail of the run starting at a given step of the plan
`pre ++ step :: post`: `concatAll` has consumed the steps of `pre`, and
every `workspace.invalidate` call resolves. -/
def runFromStep (pre : List (List RTarget)) (step : List RTarget)
    (post : List (List RTarget)) (outcome : RTarget → ExecStatus) : StepResult :=
  runStepList .topological (pre ++ step :: post) outcome (fun _ => true) (step :: post)

/-- A parallel-mode `runCommand` over its single step, with every
`workspace.invalidate` call resolving. -/
def runParallel (step : List RTarget) (outcome : RTarget → ExecStatus) : StepResult :=
  runCommand .parallel [step] outcome (fun _ => true)

/-- Reduction of `resolveInvalidations$` in topological mode when some
execution failed or was rebuilt. -/
theorem resolveInvalidations_fire (targets : List (List RTarget))
    (executions : List CaughtProcessExecution) (lastE : CaughtProcessExecution)
    (hlast : executions.getLast? = some lastE)
    (hcond : (executions.any (·.isFailed) || executions.any (·.rebuilt)) = true) :
    resolveInvalidations .topological targets executions
      = (executions.filter (·.isFailed)).map (·.target.workspace)
        ++ subsequentWorkspaces targets lastE.target := by
  unfold resolveInvalidations
  rw [hlast]
  simp [hcond]

/-- Computation of the run from a step in topological mode with all
invalidations resolving: the invalidation events follow the body, and the
run continues past the step only when nothing errored. -/
theorem runFromStep_eq (pre : List (List RTarget)) (step : List RTarget)
    (post : List (List RTarget)) (outcome : RTarget → ExecStatus) :
    runFromStep pre step post outcome
      = match (runStepBody .topological outcome step).errored with
        | some e =>
          ⟨(runStepBody .topological outcome step).events
            ++ [RunCommandEvent.nodeErrored e.target.workspace]
            ++ (resolveInvalidations .topological (pre ++ step :: post)
                (runStepBody .topological outcome step).executions).map
              RunCommandEvent.cacheInvalidated,
            Terminal.erroredNode e.target.workspace⟩
        | none =>
          ⟨((runStepBody .topological outcome step).events
            ++ (resolveInvalidations .topological (pre ++ step :: post)
                (runStepBody .topological outcome step).executions).map
              RunCommandEvent.cacheInvalidated)
            ++ (runStepList .topological (pre ++ step :: post) outcome
                (fun _ => true) post).events,
            (runStepList .topological (pre ++ step :: post) outcome
                (fun _ => true) post).terminal⟩ := by
  unfold runFromStep
  simp only [runStepList, runStep, runInvalidations_all_ok]
  cases herr : (runStepBody .topological outcome step).errored with
  | some e => simp [herr]
  | none => simp [herr]

/-- Claim C1.  In a topological run, if a task of step `k` errors or is
rebuilt (not from cache), then the events produced from step `k` onward
decompose as: the body of step `k` (which carries every
`NODE_PROCESSED`/`NODE_ERRORED` of the step, the re-emitted error
included), then a block of pure `CACHE_INVALIDATED` events containing one
for every workspace of every strictly subsequent step, and only then the
events of the later steps (so the invalidations precede the completion of
step `k` and the start of any task of step `k+1`). -/
theorem topological_error_or_rebuild_invalidates_subsequent
    (pre post : List (List RTarget)) (step : List RTarget)
    (outcome : RTarget → ExecStatus)
    (hre : ((runStepBody .topological outcome step).executions).any
        (fun e => e.isFailed || e.rebuilt) = true) :
    ∃ invEv tail,
      (runFromStep pre step post outcome).events
        = (runStepBody .topological outcome step).events
          ++ (match (runStepBody .topological outcome step).errored with
              | some e => [RunCommandEvent.nodeErrored e.target.workspace]
              | none => ([] : List RunCommandEvent))
          ++ invEv ++ tail
      ∧ (∀ ev ∈ invEv, ∃ w, ev = RunCommandEvent.cacheInvalidated w)
      ∧ (∀ t ∈ post.flatten, RunCommandEvent.cacheInvalidated t.workspace ∈ invEv) := by
  obtain ⟨e0, he0, hp0⟩ := List.any_eq_true.mp hre
  have hne : (runStepBody .topological outcome step).executions ≠ [] := by
    intro hnil
    rw [hnil] at he0
    cases he0
  obtain ⟨lastE, hlast⟩ := getLastOpt_of_ne_nil _ hne
  have hlastmem := mem_of_getLastOpt _ _ hlast
  have hlaststep := mem_step_of_mem_executions .topological outcome step lastE hlastmem
  have hcond : (((runStepBody .topological outcome step).executions).any (·.isFailed)
      || ((runStepBody .topological outcome step).executions).any (·.rebuilt)) = true := by
    rcases Bool.or_eq_true_iff.mp hp0 with h | h
    · exact Bool.or_eq_true_iff.mpr (Or.inl (List.any_eq_true.mpr ⟨e0, he0, h⟩))
    · exact Bool.or_eq_true_iff.mpr (Or.inr (List.any_eq_true.mpr ⟨e0, he0, h⟩))
  have hinv := resolveInvalidations_fire (pre ++ step :: post) _ lastE hlast hcond
  have hsub : ∀ t ∈ post.flatten,
      RunCommandEvent.cacheInvalidated t.workspace
        ∈ (resolveInvalidations .topological (pre ++ step :: post)
            (runStepBody .topological outcome step).executions).map
          RunCommandEvent.cacheInvalidated := by
    intro t ht
    rw [hinv]
    exact List.mem_map_of_mem _ (List.mem_append_right _
      (mem_subsequentWorkspaces lastE.target step post hlaststep pre false t ht))
  have hshape : ∀ ev ∈ (resolveInvalidations .topological (pre ++ step :: post)
      (runStepBody .topological outcome step).executions).map RunCommandEvent.cacheInvalidated,
      ∃ w, ev = RunCommandEvent.cacheInvalidated w := by
    intro ev hev
    obtain ⟨w, _, hw⟩ := List.mem_map.mp hev
    exact ⟨w, hw.symm⟩
  cases herr : (runStepBody .topological outcome step).errored with
  | some e =>
    refine ⟨(resolveInvalidations .topological (pre ++ step :: post)
        (runStepBody .topological outcome step).executions).map RunCommandEvent.cacheInvalidated,
      [], ?_, hshape, hsub⟩
    rw [runFromStep_eq]
    simp [herr, List.append_assoc]
  | none =>
    refine ⟨(resolveInvalidations .topological (pre ++ step :: post)
        (runStepBody .topological outcome step).executions).map RunCommandEvent.cacheInvalidated,
      (runStepList .topological (pre ++ step :: post) outcome (fun _ => true) post).events,
      ?_, hshape, hsub⟩
    rw [runFromStep_eq]
    simp [herr, List.append_assoc]

/-- Claim C2.  In a topological run, when a task of the current step
errors, the run terminates with the original `NODE_ERRORED` payload, the
cache-invalidation events for the errored workspace and for every
workspace of the strictly subsequent steps are still emitted, and no task
of a strictly subsequent step is ever started. -/
theorem topological_error_aborts_run
    (pre post : List (List RTarget)) (step : List RTarget)
    (outcome : RTarget → ExecStatus) (e : CaughtProcessExecution)
    (herr : (runStepBody .topological outcome step).errored = some e)
    (hdisj : ∀ t ∈ post.flatten, t.workspace ∉ step.map (·.workspace)) :
    (runFromStep pre step post outcome).terminal = Terminal.erroredNode e.target.workspace
    ∧ RunCommandEvent.cacheInvalidated e.target.workspace
        ∈ (runFromStep pre step post outcome).events
    ∧ (∀ t ∈ post.flatten, RunCommandEvent.cacheInvalidated t.workspace
        ∈ (runFromStep pre step post outcome).events)
    ∧ (∀ t ∈ post.flatten, RunCommandEvent.nodeStarted t.workspace
        ∉ (runFromStep pre step post outcome).events) := by
  obtain ⟨hlast, hfail, hmem⟩ := errored_spec outcome step e herr
  have hstep := mem_step_of_mem_executions .topological outcome step e hmem
  have hcond : (((runStepBody .topological outcome step).executions).any (·.isFailed)
      || ((runStepBody .topological outcome step).executions).any (·.rebuilt)) = true :=
    Bool.or_eq_true_iff.mpr (Or.inl (List.any_eq_true.mpr ⟨e, hmem, hfail⟩))
  have hinv := resolveInvalidations_fire (pre ++ step :: post) _ e hlast hcond
  have hev : (runFromStep pre step post outcome).events
      = (runStepBody .topological outcome step).events
        ++ [RunCommandEvent.nodeErrored e.target.workspace]
        ++ (resolveInvalidations .topological (pre ++ step :: post)
            (runStepBody .topological outcome step).executions).map
          RunCommandEvent.cacheInvalidated := by
    rw [runFromStep_eq, herr]
  have hterm : (runFromStep pre step post outcome).terminal
      = Terminal.erroredNode e.target.workspace := by
    rw [runFromStep_eq, herr]
  refine ⟨hterm, ?_, ?_, ?_⟩
  · rw [hev]
    refine List.mem_append_right _ ?_
    rw [hinv]
    refine List.mem_map_of_mem _ (List.mem_append_left _ ?_)
    exact List.mem_map_of_mem _ (List.mem_filter.mpr ⟨hmem, hfail⟩)
  · intro t ht
    rw [hev]
    refine List.mem_append_right _ ?_
    rw [hinv]
    exact List.mem_map_of_mem _ (List.mem_append_right _
      (mem_subsequentWorkspaces e.target step post hstep pre false t ht))
  · intro t ht hcon
    rw [hev] at hcon
    rcases List.mem_append.mp hcon with h | h
    · rcases List.mem_append.mp h with h2 | h2
      · obtain ⟨t2, ht2, hwt⟩ := started_mem_step .topological outcome step t.workspace h2
        exact hdisj t ht (hwt ▸ List.mem_map_of_mem _ ht2)
      · rcases List.mem_singleton.mp h2 with h3
        cases h3
    · obtain ⟨w, _, hw⟩ := List.mem_map.mp h
      cases hw

/-- In parallel mode `resolveInvalidations$` invalidates exactly the
errored workspaces, in execution order. -/
theorem resolveInvalidations_parallel (targets : List (List RTarget))
    (executions : List CaughtProcessExecution) :
    resolveInvalidations .parallel targets executions
      = (executions.filter (·.isFailed)).map (·.target.workspace) := by
  unfold resolveInvalidations
  cases executions.getLast? <;> simp

/-- Computation of a parallel single-step run with all invalidations
resolving. -/
theorem runParallel_eq (step : List RTarget) (outcome : RTarget → ExecStatus) :
    runParallel step outcome
      = ⟨RunCommandEvent.targetsResolved ([step] : List (List RTarget)).flatten ::
          ((runStepBody .parallel outcome step).events
            ++ (resolveInvalidations .parallel [step]
                (runStepBody .parallel outcome step).executions).map
              RunCommandEvent.cacheInvalidated),
        Terminal.completed⟩ := by
  unfold runParallel runCommand
  simp only [List.isEmpty_cons, if_false, Bool.false_eq_true]
  simp only [runStepList, runStep, runInvalidations_all_ok, parallel_errored_none]
  simp

/-- Claim C6.  In a parallel run a task failure is reported as a
`NODE_ERRORED` event and the stream still completes normally; every other
task settles (`NODE_PROCESSED` for the resolving ones), and the step ends
with a block of pure `CACHE_INVALIDATED` events containing one for each
errored workspace. -/
theorem parallel_errors_reported_as_events (step : List RTarget)
    (outcome : RTarget → ExecStatus) :
    (runParallel step outcome).terminal = Terminal.completed
    ∧ (∀ t ∈ step, t.affected = true → t.hasCommand = true → outcome t = .ko →
        RunCommandEvent.nodeErrored t.workspace ∈ (runParallel step outcome).events
        ∧ RunCommandEvent.cacheInvalidated t.workspace ∈ (runParallel step outcome).events)
    ∧ (∀ t ∈ step, t.affected = true → t.hasCommand = true →
        ∀ fromCache, outcome t = .ok fromCache →
          RunCommandEvent.nodeProcessed t.workspace fromCache
            ∈ (runParallel step outcome).events)
    ∧ (∃ bodyEv invEv,
        (runParallel step outcome).events
          = RunCommandEvent.targetsResolved ([step] : List (List RTarget)).flatten
              :: (bodyEv ++ invEv)
        ∧ (∀ ev ∈ invEv, ∃ w, ev = RunCommandEvent.cacheInvalidated w)
        ∧ (∀ ev ∈ bodyEv, ∀ w, ev ≠ RunCommandEvent.cacheInvalidated w)) := by
  refine ⟨by rw [runParallel_eq], ?_, ?_, ?_⟩
  · intro t ht ha hc hko
    obtain ⟨h1, h2⟩ := parallel_ko_events outcome step t ht ha hc hko
    constructor
    · rw [runParallel_eq]
      exact List.mem_cons_of_mem _ (List.mem_append_left _ h1)
    · rw [runParallel_eq]
      refine List.mem_cons_of_mem _ (List.mem_append_right _ ?_)
      rw [resolveInvalidations_parallel]
      have hmemf : (⟨t, .ko⟩ : CaughtProcessExecution)
          ∈ (runStepBody .parallel outcome step).executions.filter (·.isFailed) :=
        List.mem_filter.mpr ⟨h2, rfl⟩
      have hmemw := List.mem_map_of_mem
        (fun x : CaughtProcessExecution => x.target.workspace) hmemf
      exact List.mem_map_of_mem RunCommandEvent.cacheInvalidated hmemw
  · intro t ht ha hc fromCache hok
    rw [runParallel_eq]
    exact List.mem_cons_of_mem _
      (List.mem_append_left _ (parallel_ok_events outcome step t ht ha hc fromCache hok))
  · refine ⟨(runStepBody .parallel outcome step).events,
      (resolveInvalidations .parallel [step]
        (runStepBody .parallel outcome step).executions).map RunCommandEvent.cacheInvalidated,
      by rw [runParallel_eq], ?_, ?_⟩
    · intro ev hev
      obtain ⟨w, _, hw⟩ := List.mem_map.mp hev
      exact ⟨w, hw.symm⟩
    · exact fun ev hev w => body_no_invalidation .parallel outcome step ev hev w

/-- Witness for claim C1 at a concrete two-step plan: step 0 holds
workspace `a`, rebuilt (not from cache); step 1 holds workspace `b`. -/
theorem topological_error_or_rebuild_invalidates_subsequent_witness :
    ((runStepBody .topological (fun _ => ExecStatus.ok false)
        [⟨"a", true, true⟩]).executions).any (fun e => e.isFailed || e.rebuilt) = true
    ∧ ∃ invEv tail,
        (runFromStep [] [⟨"a", true, true⟩] [[⟨"b", true, true⟩]]
            (fun _ => ExecStatus.ok false)).events
          = (runStepBody .topological (fun _ => ExecStatus.ok false)
              [⟨"a", true, true⟩]).events
            ++ (match (runStepBody .topological (fun _ => ExecStatus.ok false)
                  [⟨"a", true, true⟩]).errored with
                | some e => [RunCommandEvent.nodeErrored e.target.workspace]
                | none => ([] : List RunCommandEvent))
            ++ invEv ++ tail
        ∧ (∀ ev ∈ invEv, ∃ w, ev = RunCommandEvent.cacheInvalidated w)
        ∧ (∀ t ∈ ([[⟨"b", true, true⟩]] : List (List RTarget)).flatten,
            RunCommandEvent.cacheInvalidated t.workspace ∈ invEv) :=
  ⟨by decide,
    topological_error_or_rebuild_invalidates_subsequent [] [[⟨"b", true, true⟩]]
      [⟨"a", true, true⟩] (fun _ => ExecStatus.ok false) (by decide)⟩

/-- Witness for claim C2 at a concrete two-step plan: step 0 holds
workspace `a`, whose task rejects; step 1 holds workspace `b`. -/
theorem topological_error_aborts_run_witness :
    (runStepBody .topological (fun _ => ExecStatus.ko) [⟨"a", true, true⟩]).errored
      = some ⟨⟨"a", true, true⟩, ExecStatus.ko⟩
    ∧ (∀ t ∈ ([[⟨"b", true, true⟩]] : List (List RTarget)).flatten,
        t.workspace ∉ ([⟨"a", true, true⟩] : List RTarget).map (·.workspace))
    ∧ ((runFromStep [] [⟨"a", true, true⟩] [[⟨"b", true, true⟩]]
          (fun _ => ExecStatus.ko)).terminal
        = Terminal.erroredNode "a"
      ∧ RunCommandEvent.cacheInvalidated "a"
          ∈ (runFromStep [] [⟨"a", true, true⟩] [[⟨"b", true, true⟩]]
              (fun _ => ExecStatus.ko)).events
      ∧ (∀ t ∈ ([[⟨"b", true, true⟩]] : List (List RTarget)).flatten,
          RunCommandEvent.cacheInvalidated t.workspace
            ∈ (runFromStep [] [⟨"a", true, true⟩] [[⟨"b", true, true⟩]]
                (fun _ => ExecStatus.ko)).events)
      ∧ (∀ t ∈ ([[⟨"b", true, true⟩]] : List (List RTarget)).flatten,
          RunCommandEvent.nodeStarted t.workspace
            ∉ (runFromStep [] [⟨"a", true, true⟩] [[⟨"b", true, true⟩]]
                (fun _ => ExecStatus.ko)).events)) :=
  ⟨by decide, by decide,
    topological_error_aborts_run [] [[⟨"b", true, true⟩]] [⟨"a", true, true⟩]
      (fun _ => ExecStatus.ko) ⟨⟨"a", true, true⟩, ExecStatus.ko⟩ (by decide) (by decide)⟩

/-- Witness for claim C6 at a concrete parallel step: workspace `a`
rejects, workspace `b` resolves from cache. -/
theorem parallel_errors_reported_as_events_witness :
    (runParallel [⟨"a", true, true⟩, ⟨"b", true, true⟩]
        (fun t => if t.workspace = "a" then ExecStatus.ko else ExecStatus.ok true)).terminal
      = Terminal.completed
    ∧ RunCommandEvent.nodeErrored "a"
        ∈ (runParallel [⟨"a", true, true⟩, ⟨"b", true, true⟩]
            (fun t => if t.workspace = "a" then ExecStatus.ko else ExecStatus.ok true)).events
    ∧ RunCommandEvent.cacheInvalidated "a"
        ∈ (runParallel [⟨"a", true, true⟩, ⟨"b", true, true⟩]
            (fun t => if t.workspace = "a" then ExecStatus.ko else ExecStatus.ok true)).events
    ∧ RunCommandEvent.nodeProcessed "b" true
        ∈ (runParallel [⟨"a", true, true⟩, ⟨"b", true, true⟩]
            (fun t => if t.workspace = "a" then ExecStatus.ko else ExecStatus.ok true)).events := by
  have h := parallel_errors_reported_as_events [⟨"a", true, true⟩, ⟨"b", true, true⟩]
    (fun t => if t.workspace = "a" then ExecStatus.ko else ExecStatus.ok true)
  obtain ⟨h1, h2, h3, _⟩ := h
  have hka := h2 ⟨"a", true, true⟩ (by decide) rfl rfl (by decide)
  have hkb := h3 ⟨"b", true, true⟩ (by decide) rfl rfl true (by decide)
  exact ⟨h1, hka.1, hka.2, hkb⟩

end Runner

namespace Project

/-- The recursive `visitWorkspace` closure of
`Project.getTopologicallySortedWorkspaces` (`src/core/src/project.ts`
lines 65-81): visit every dependency (the generator
`Workspace.dependencies` of `src/core/src/workspace.ts` lines 56-69,
embedded as the map `deps` from a workspace name to the names of its
in-project dependencies), then add the workspace to the `sortedWorkspaces`
set (insertion-ordered, deduplicating).  The source performs no cycle
check and carries no fuel; the embedding adds an explicit call-stack
budget `fuel`, so a run that returns `none` for every budget is a run of
the source that never returns. -/
def visitWorkspace (deps : WorkspaceName → List WorkspaceName) :
    Nat → WorkspaceName → List WorkspaceName → Option (List WorkspaceName)
  | 0, _, _ => none
  | Nat.succ n, w, sortedWorkspaces =>
    match (deps w).foldlM (fun acc d => visitWorkspace deps n d acc) sortedWorkspaces with
    | none => none
    | some acc => some (if acc.contains w then acc else acc ++ [w])

/-- `Project.getTopologicallySortedWorkspaces` called with a `to`
workspace (`src/core/src/project.ts` lines 65-81): depth-first post-order
from `to` into an initially empty set. -/
def getTopologicallySortedWorkspaces (deps : WorkspaceName → List WorkspaceName)
    (fuel : Nat) (toW : WorkspaceName) : Option (List WorkspaceName) :=
  visitWorkspace deps fuel toW []

/-- There is a dependency chain of length `n` starting at `w`: the DFS of
the source can descend at least `n` calls deep from `w`. -/
def hasChainB (deps : WorkspaceName → List WorkspaceName) :
    Nat → WorkspaceName → Bool
  | 0, _ => true
  | Nat.succ n, w => (deps w).any (hasChainB deps n)

/-- If some element of the dependency list can exhaust the budget, the
fold over the dependency list exhausts it. -/
theorem foldlM_visit_none (deps : WorkspaceName → List WorkspaceName) (n : Nat)
    (ih : ∀ w acc, hasChainB deps n w = true → visitWorkspace deps n w acc = none) :
    ∀ (l : List WorkspaceName) (acc : List WorkspaceName),
      l.any (hasChainB deps n) = true →
        l.foldlM (fun acc d => visitWorkspace deps n d acc) acc = none := by
  intro l
  induction l with
  | nil => intro acc h; simp at h
  | cons d rest ihl =>
    intro acc h
    rw [List.any_cons] at h
    rcases Bool.or_eq_true_iff.mp h with hd | hrest
    · rw [List.foldlM_cons, ih d acc hd]
      rfl
    · cases hv : visitWorkspace deps n d acc with
      | none =>
        rw [List.foldlM_cons, hv]
        rfl
      | some acc2 =>
        rw [List.foldlM_cons, hv]
        simpa using ihl acc2 hrest

/-- A workspace from which dependency chains of every length start makes
the DFS exhaust any call budget. -/
theorem visit_none_of_chain (deps : WorkspaceName → List WorkspaceName) :
    ∀ (n : Nat) (w : WorkspaceName) (acc : List WorkspaceName),
      hasChainB deps n w = true → visitWorkspace deps n w acc = none := by
  intro n
  induction n with
  | zero => intro w acc _; rfl
  | succ n ih =>
    intro w acc h
    have hany : (deps w).any (hasChainB deps n) = true := by
      simpa [hasChainB] using h
    have hfold := foldlM_visit_none deps n ih (deps w) acc hany
    simp [visitWorkspace, hfold]

/-- A concrete cyclic dependency relation: two workspaces, each depending
on the other (the manifests make such a project loadable: project load
only warns on unreadable workspaces and performs no cycle check). -/
def cyclicDeps : WorkspaceName → List WorkspaceName :=
  fun w =>
    if w = "@org/alpha" then ["@org/beta"]
    else if w = "@org/beta" then ["@org/alpha"] else []

/-- Both workspaces of the cyclic fixture start chains of every length. -/
theorem cyclicDeps_chain :
    ∀ n, hasChainB cyclicDeps n "@org/alpha" = true
      ∧ hasChainB cyclicDeps n "@org/beta" = true := by
  intro n
  induction n with
  | zero => exact ⟨rfl, rfl⟩
  | succ n ih =>
    constructor
    · have : cyclicDeps "@org/alpha" = ["@org/beta"] := by rfl
      simp [hasChainB, this, ih.2]
    · have : cyclicDeps "@org/beta" = ["@org/alpha"] := by rfl
      simp [hasChainB, this, ih.1]

/-- Claim C4 as stated, at the cyclic fixture: the sort would have to
fail with a cycle error and never diverge; instead the embedded DFS of
`getTopologicallySortedWorkspaces` (which has no error outcome at all,
because the source raises none) exhausts every call budget — the source
recursion never returns on this input and no cycle error exists to be
raised. -/
def cyclicSortNeverReturns : Prop :=
  ∀ fuel : Nat, getTopologicallySortedWorkspaces cyclicDeps fuel "@org/alpha" = none

/-- Counterexample for claim C4: on the concrete cyclic two-workspace
project the topological sort diverges for every stack budget instead of
failing with a cycle error. -/
theorem cyclicSort_diverges : cyclicSortNeverReturns :=
  fun fuel => visit_none_of_chain cyclicDeps fuel "@org/alpha" [] (cyclicDeps_chain fuel).1

/-- Claim C4 amended: the loader and the topological sort perform no
cycle detection and can raise no cycle error; on any workspace from which
dependency chains of every length start (in particular any workspace on
or reaching a dependency cycle), the DFS of
`getTopologicallySortedWorkspaces` never returns, for any call budget. -/
theorem topologicalSort_diverges_on_cycle (deps : WorkspaceName → List WorkspaceName)
    (w : WorkspaceName) (hch : ∀ n, hasChainB deps n w = true) :
    ∀ fuel : Nat, getTopologicallySortedWorkspaces deps fuel w = none :=
  fun fuel => visit_none_of_chain deps fuel w [] (hch fuel)

/-- Witness for the amended claim C4 at the cyclic fixture with a
concrete budget. -/
theorem topologicalSort_diverges_on_cycle_witness :
    getTopologicallySortedWorkspaces cyclicDeps 5 "@org/alpha" = none :=
  topologicalSort_diverges_on_cycle cyclicDeps "@org/alpha"
    (fun n => (cyclicDeps_chain n).1) 5

end Project

/-- Node `path.join`, as used with one separator by the source;
normalization is abstracted because the result is only consumed by the
glob oracle. -/
def joinPath (a b : String) : String := a ++ "/" ++ b

namespace Workspace

/-- `Workspace._testAffected` (`src/core/src/workspace.ts` lines 115-129,
identical in `src/unnamed/part_017` lines 123-137).  `diffs` is the
version-control diff restricted to the workspace root
(`git.diff --name-only ... -- this.root`), `rel` is
`relative(git.root, this.root)` and `globSync` is the `fast-glob` oracle.
The guard mirrors the source condition
`patterns.length === 0 && patterns[0] === '**'`, which demands both an
empty pattern list and a first pattern — it can never hold. -/
def testAffected (rel : String) (diffs : List String)
    (globSync : String → List String) (patterns : List String) : Bool :=
  if patterns.isEmpty && (patterns[0]? == some "**") then
    decide (diffs.length > 0)
  else
    let files := (patterns.map (fun pattern => globSync (joinPath rel pattern))).foldl
      (fun acc val => acc ++ val) []
    diffs.any (fun diff => files.contains diff)

/-- Claim C3 evaluated at the failing inputs.  With an empty pattern list
the diff is non-empty yet the workspace is reported unaffected (the
expansion of no pattern is empty); with the default `[**]` pattern list a
diff path outside the glob expansion (for example a deleted file, which
the glob of the working tree cannot list) also leaves the workspace
unaffected, although the claim requires `affected` whenever the diff is
non-empty.  The dead guard shows the `&&` is a slip for `||`. -/
theorem testAffected_guard_unreachable :
    testAffected "pkg" ["pkg/src/a.ts"] (fun _ => []) [] = false
    ∧ (["pkg/src/a.ts"] : List String).length > 0
    ∧ testAffected "pkg" ["pkg/deleted.ts"] (fun _ => ["pkg/kept.ts"]) ["**"] = false
    ∧ (["pkg/deleted.ts"] : List String).length > 0 := by
  refine ⟨?_, by decide, ?_, by decide⟩ <;> rfl

end Workspace

/-- Lookup of a key in a flat JSON object represented as an association
list (first occurrence wins; JSON objects hold each key once). -/
def lookupRecord (m : List (String × String)) (k : String) : Option String :=
  (m.find? (fun kv => kv.1 == k)).map (·.2)

/-- `lodash.isEqual` restricted to flat string records, as used by
`Cache.read`: the two objects hold the same keys with the same values,
irrespective of insertion order. -/
def recordEq (a b : List (String × String)) : Bool :=
  a.all (fun kv => lookupRecord b kv.1 == lookupRecord a kv.1) &&
    b.all (fun kv => lookupRecord a kv.1 == lookupRecord b kv.1)

namespace Checksum

/-- `Checksum.read` (`src/core/src/cache.ts` lines 131-138): read and
parse `checksums.json`; any error is caught and yields the empty
record.  `storedRaw` is the outcome of reading and parsing the file. -/
def read (storedRaw : Except Unit (List (String × String))) :
    List (String × String) :=
  match storedRaw with
  | .ok m => m
  | .error _ => []

/-- `Checksum.calculate` (`src/core/src/cache.ts` lines 140-155): expand
the `src` globs of the target config (`src` is the resulting file list,
already joined under the workspace root), fail with
`NO_FILES_TO_CACHE` (message `No path to cache`) when it is empty, and
otherwise build the record `cmd`, `globs`, then one sha256 entry per
file (`hash` is the hasha oracle). -/
def calculate (cmdStr globsStr : String) (src : List String)
    (hash : String → String) : Except Unit (List (String × String)) :=
  if src.isEmpty then .error ()
  else .ok (("cmd", cmdStr) :: ("globs", globsStr) :: src.map (fun p => (p, hash p)))

end Checksum

namespace Cache

/-- `Cache.read` (`src/core/src/cache.ts` lines 34-55): compute the
current checksums and read the stored ones; on any exception of the
computation return a miss (`null`), both in the `No path to cache` case
and in the general catch; on a record mismatch (`!isEqual`) return a
miss; otherwise read and parse `output.json` (`output` is that outcome,
a parse or read failure being caught into a miss) and return the stored
command results. -/
def read (α : Type) (cmdStr globsStr : String) (src : List String)
    (hash : String → String) (storedRaw : Except Unit (List (String × String)))
    (output : Except Unit (List α)) : Option (List α) :=
  match Checksum.calculate cmdStr globsStr src hash with
  | .error _ => none
  | .ok currentChecksums =>
    if recordEq currentChecksums (Checksum.read storedRaw) then
      match output with
      | .ok res => some res
      | .error _ => none
    else none

end Cache

/-- Unfolding of `Cache.read` when the checksum computation resolves. -/
theorem cache_read_calc_ok (α : Type) (cmdStr globsStr : String)
    (src : List String) (hash : String → String)
    (storedRaw : Except Unit (List (String × String)))
    (output : Except Unit (List α)) (current : List (String × String))
    (hc : Checksum.calculate cmdStr globsStr src hash = .ok current) :
    Cache.read α cmdStr globsStr src hash storedRaw output
      = if recordEq current (Checksum.read storedRaw) then
          match output with
          | .ok res => some res
          | .error _ => none
        else none := by
  unfold Cache.read
  rw [hc]

/-- Unfolding of `Cache.read` when the checksum computation throws. -/
theorem cache_read_calc_err (α : Type) (cmdStr globsStr : String)
    (src : List String) (hash : String → String)
    (storedRaw : Except Unit (List (String × String)))
    (output : Except Unit (List α))
    (hc : Checksum.calculate cmdStr globsStr src hash = .error ()) :
    Cache.read α cmdStr globsStr src hash storedRaw output = none := by
  unfold Cache.read
  rw [hc]

/-- Claim C5.  A cache read returns stored results exactly when the
current fingerprint computes successfully, equals the stored one key for
key and value for value, and the stored results file parses; every other
case — fingerprint computation error, stored-fingerprint load error
(which yields the empty record, never equal to a computed fingerprint,
as the computed one always holds its `cmd` key), record mismatch,
missing or unparseable results — is a miss. -/
theorem cache_read_hit_iff (α : Type) (cmdStr globsStr : String)
    (src : List String) (hash : String → String)
    (storedRaw : Except Unit (List (String × String)))
    (output : Except Unit (List α)) :
    (∀ rs : List α,
      Cache.read α cmdStr globsStr src hash storedRaw output = some rs ↔
        ∃ currentChecksums,
          Checksum.calculate cmdStr globsStr src hash = .ok currentChecksums
          ∧ recordEq currentChecksums (Checksum.read storedRaw) = true
          ∧ output = .ok rs)
    ∧ (storedRaw = .error () →
        Cache.read α cmdStr globsStr src hash storedRaw output = none) := by
  constructor
  · intro rs
    constructor
    · intro h
      cases hc : Checksum.calculate cmdStr globsStr src hash with
      | error e =>
        cases e
        rw [cache_read_calc_err α cmdStr globsStr src hash storedRaw output hc] at h
        cases h
      | ok current =>
        rw [cache_read_calc_ok α cmdStr globsStr src hash storedRaw output current hc] at h
        by_cases heq : recordEq current (Checksum.read storedRaw) = true
        · rw [if_pos heq] at h
          cases ho : output with
          | ok res =>
            rw [ho] at h
            cases h
            exact ⟨current, rfl, heq, rfl⟩
          | error e => rw [ho] at h; cases h
        · rw [if_neg heq] at h; cases h
    · rintro ⟨current, hc, heq, ho⟩
      rw [cache_read_calc_ok α cmdStr globsStr src hash storedRaw output current hc,
        if_pos heq, ho]
  · intro hst
    subst hst
    cases hc : Checksum.calculate cmdStr globsStr src hash with
    | error e =>
      cases e
      exact cache_read_calc_err α cmdStr globsStr src hash _ output hc
    | ok current =>
      have hcmd : lookupRecord current "cmd" = some cmdStr := by
        unfold Checksum.calculate at hc
        by_cases hsrc : src.isEmpty
        · rw [if_pos hsrc] at hc; cases hc
        · rw [if_neg hsrc] at hc
          cases hc
          rfl
      have hne : recordEq current (Checksum.read (.error ())) = false := by
        have hmem : ("cmd", cmdStr) ∈ current := by
          unfold Checksum.calculate at hc
          by_cases hsrc : src.isEmpty
          · rw [if_pos hsrc] at hc; cases hc
          · rw [if_neg hsrc] at hc
            cases hc
            exact List.mem_cons_self _ _
        unfold recordEq
        rw [Bool.and_eq_false_iff]
        left
        rw [List.all_eq_false]
        refine ⟨("cmd", cmdStr), hmem, ?_⟩
        intro hcontra
        rw [hcmd] at hcontra
        exact Bool.false_ne_true hcontra
      rw [cache_read_calc_ok α cmdStr globsStr src hash _ output current hc, hne]
      rfl

/-- Witness for claim C5: a concrete hit through the iff and a concrete
miss on a stored-fingerprint load error. -/
theorem cache_read_hit_iff_witness :
    Cache.read Nat "build" "src" ["src/a.ts"] (fun _ => "h")
        (.ok [("cmd", "build"), ("globs", "src"), ("src/a.ts", "h")]) (.ok [7]) = some [7]
    ∧ Cache.read Nat "build" "src" ["src/a.ts"] (fun _ => "h")
        (.error ()) (.ok [7]) = none :=
  ⟨((cache_read_hit_iff Nat "build" "src" ["src/a.ts"] (fun _ => "h")
        (.ok [("cmd", "build"), ("globs", "src"), ("src/a.ts", "h")]) (.ok [7])).1 [7]).mpr
      ⟨[("cmd", "build"), ("globs", "src"), ("src/a.ts", "h")], rfl, by rfl, rfl⟩,
    (cache_read_hit_iff Nat "build" "src" ["src/a.ts"] (fun _ => "h")
        (.error ()) (.ok [7])).2 rfl⟩

/-- Existence of the two files of a cache directory
(`checksums.json`, `output.json`). -/
structure CacheFsState where
  checksumExists : Bool
  outputExists : Bool
deriving DecidableEq, Repr, Fintype

/-- IO faults during one `Cache.invalidate` call: `access` rejecting with
an error other than `ENOENT`, and `unlink` rejecting. -/
structure CacheFsFaults where
  accessChecksumFault : Bool
  accessOutputFault : Bool
  unlinkChecksumFault : Bool
  unlinkOutputFault : Bool
deriving DecidableEq, Repr, Fintype

namespace Cache

/-- The `removeIfExists` helper inside `Cache.invalidate`
(`src/core/src/cache.ts` lines 82-97): `access` reporting `ENOENT` means
the file is missing and is not an error; any other `access` error or an
`unlink` rejection is an error.  Returns the existence of the file after
the call and whether the call resolved. -/
def removeIfExists (fileExists accessFault unlinkFault : Bool) : Bool × Bool :=
  if accessFault then (fileExists, false)
  else if fileExists then
    (if unlinkFault then (true, false) else (false, true))
  else (false, true)

/-- `Cache.invalidate` (`src/core/src/cache.ts` lines 79-105):
`Promise.all` removes both files (each removal runs regardless of the
outcome of the other); any error makes the call reject with the fatal
invalidation error.  Returns the cache state after the call and whether
the call resolved. -/
def invalidate (st : CacheFsState) (f : CacheFsFaults) : CacheFsState × Bool :=
  let c := removeIfExists st.checksumExists f.accessChecksumFault f.unlinkChecksumFault
  let o := removeIfExists st.outputExists f.accessOutputFault f.unlinkOutputFault
  (⟨c.1, o.1⟩, c.2 && o.2)

end Cache

/-- Claim C9.  Calling `Cache.invalidate` twice leaves the cache
directory in the state one call leaves it in and succeeds exactly when
one call does; and with no IO fault the call resolves whatever the
state — removing already-missing files is not an error, only some other
IO failure makes `invalidate` throw. -/
theorem cache_invalidate_idempotent :
    ∀ (st : CacheFsState) (f : CacheFsFaults),
      Cache.invalidate (Cache.invalidate st f).1 f = Cache.invalidate st f
      ∧ (Cache.invalidate st ⟨false, false, false, false⟩).2 = true := by
  decide

/-- What happened inside one `Cache.write` call: whether both files were
written, whether `invalidate()` was called and resolved, and whether the
call rejected. -/
structure WriteEffect where
  wrote : Bool
  invalidated : Bool
  rejected : Bool
deriving DecidableEq, Repr

namespace Cache

/-- The body of `Cache.write` (`src/core/src/cache.ts` lines 57-77)
without its outer catch.  `calcFails` — `checksums.calculate()` at line
60 (reached when `this._checksums` is unset) throws `NO_FILES_TO_CACHE`
with message `No path to cache`; that call sits before the inner try, so
its error propagates directly to the outer catch, bypassing the inner
catch.  `writeFail` is the outcome of the two `fs.writeFile` calls of
the inner try: `none` when both resolve, `some msg` a rejection carrying
message `msg`; the inner catch (lines 67-73) calls `this.invalidate()`
when `msg` is exactly `No path to cache` and rethrows any other message.
In the source, `Checksum.calculate` is the only thrower of that message
and `fs.writeFile` never rejects with it, so the invalidate branch of
the inner catch is dead code in real executions; the embedding keeps the
branch because the catch is in the source text, as a function of the
arbitrary message.  `invalidateThrows` — the `invalidate()` call inside
the inner catch rejects.  Returns (wrote, invalidated). -/
def writeBody (calcFails : Bool) (writeFail : Option String)
    (invalidateThrows : Bool) : Except Unit (Bool × Bool) :=
  if calcFails then .error ()
  else
    match writeFail with
    | none => .ok (true, false)
    | some msg =>
      if msg == "No path to cache" then
        (if invalidateThrows then .error () else .ok (false, true))
      else .error ()

/-- `Cache.write` (`src/core/src/cache.ts` lines 57-77): the outer catch
logs a warning and swallows every error, so the call always resolves. -/
def write (calcFails : Bool) (writeFail : Option String)
    (invalidateThrows : Bool) : WriteEffect :=
  match writeBody calcFails writeFail invalidateThrows with
  | .ok (w, i) => ⟨w, i, false⟩
  | .error _ => ⟨false, false, false⟩

end Cache

/-- `IProcessResult` of `src/core/src/process.ts`, restricted to the
fields the claims need (command results and the `fromCache` flag). -/
structure IProcessResult (α : Type) where
  commands : List α
  fromCache : Bool
deriving DecidableEq, Repr

namespace Workspace

/-- `Workspace._runCommandsAndCache` (`src/core/src/workspace.ts` lines
334-366): run the commands; on success try to cache the results, and
emit `fromCache = false` whether `cache.write` resolved or the inner
catch caught its rejection; on command failure invalidate the cache
(invalidation errors are swallowed) and rethrow the command error. -/
def runCommandsAndCache (α : Type) (cmdOutcome : Except Unit (List α))
    (calcFails : Bool) (writeFail : Option String) (invalidateThrows : Bool) :
    Except Unit (IProcessResult α) :=
  match cmdOutcome with
  | .ok results =>
    if (Cache.write calcFails writeFail invalidateThrows).rejected then
      .ok ⟨results, false⟩
    else .ok ⟨results, false⟩
  | .error e => .error e

end Workspace

/-- Counterexample for claim C10: in the no-input-files case — the only
producer of the `No path to cache` error in the source is
`Checksum.calculate`, invoked by `Cache.write` at line 60 outside the
inner try — the cache is NOT invalidated: the throw reaches the outer
catch directly and is swallowed with nothing written and nothing
invalidated, while the task still resolves with `fromCache = false`.
The claim asserts that in this case the cache is invalidated instead of
written. -/
theorem cache_write_noInputs_not_invalidated :
    (Cache.write true none false).invalidated = false
    ∧ (Cache.write true none false).wrote = false
    ∧ (Cache.write true none false).rejected = false
    ∧ Workspace.runCommandsAndCache Nat (.ok [7]) true none false
        = .ok ⟨[7], false⟩ :=
  ⟨rfl, rfl, rfl, rfl⟩

/-- Claim C10 amended.  When every command of a task succeeds, a
cache-persisting failure of any kind never fails the task: `Cache.write`
never rejects (the outer catch swallows every error) and the run
resolves with `fromCache = false`; in the no-input-files case the error
thrown by `Checksum.calculate` propagates to the outer catch and is
swallowed, with nothing written and nothing invalidated — the
invalidate-on-no-path branch of the inner catch is dead code, reachable
only through an fs rejection carrying that exact message, which the
program cannot produce. -/
theorem cache_write_failure_never_fails_task (α : Type) (results : List α)
    (calcFails : Bool) (writeFail : Option String) (invalidateThrows : Bool) :
    Workspace.runCommandsAndCache α (.ok results) calcFails writeFail invalidateThrows
        = .ok ⟨results, false⟩
    ∧ (Cache.write calcFails writeFail invalidateThrows).rejected = false
    ∧ (Cache.write true writeFail invalidateThrows).wrote = false
    ∧ (Cache.write true writeFail invalidateThrows).invalidated = false := by
  refine ⟨?_, ?_, rfl, rfl⟩
  · unfold Workspace.runCommandsAndCache
    exact ite_self _
  · unfold Cache.write
    cases h : Cache.writeBody calcFails writeFail invalidateThrows with
    | ok p =>
      rcases p with ⟨w, i⟩
      rfl
    | error e => rfl

/-- The `stdio` field of a `LogsCondition`
(`ILogsCondition` in `src/core/src/config.ts`). -/
inductive StdioStream
  | stdout
  | stderr
  | all
deriving DecidableEq, Repr

/-- The stream a child-process chunk arrives on (`all` receives both). -/
inductive ChunkStream
  | stdout
  | stderr
deriving DecidableEq, Repr

/-- The `type` field of a `LogsCondition`. -/
inductive CondType
  | success
  | failure
deriving DecidableEq, Repr

/-- How the race inside `Workspace._handleDaemon` resolves. -/
inductive RaceOutcome
  | success
  | conditionFailed
  | timeout
  | crashed
deriving DecidableEq, Repr

/-- `ILogsCondition` of the target configuration. -/
structure LogsCondition where
  stdio : StdioStream
  matcher : String
  value : String
  condType : CondType
  timeout : Option Nat
deriving DecidableEq, Repr

/-- A chunk of child-process output, with its arrival time in
milliseconds since the daemon started. -/
structure Chunk where
  time : Nat
  stream : ChunkStream
  data : String
deriving DecidableEq, Repr

namespace Daemon

/-- `DEFAULT_DAEMON_TIMEOUT = TWO_MINUTES` of `src/core/src/workspace.ts`
lines 27-28. -/
def DEFAULT_DAEMON_TIMEOUT : Nat := 2 * 60 * 1000

/-- `condition.timeout || DEFAULT_DAEMON_TIMEOUT` of
`src/core/src/workspace.ts` line 199 (a configured `0` is falsy in the
source and also falls back to the default). -/
def timeoutOf (c : LogsCondition) : Nat :=
  match c.timeout with
  | some t => if t = 0 then DEFAULT_DAEMON_TIMEOUT else t
  | none => DEFAULT_DAEMON_TIMEOUT

/-- Substring test, the semantics of `String.prototype.includes`. -/
def strContains (s sub : String) : Bool :=
  if sub.isEmpty then true else (s.splitOn sub).length != 1

/-- Whether a chunk arrives on the stream the condition listens to
(`cmdProcess[condition.stdio]`, line 195). -/
def onStream (cs : StdioStream) (ch : Chunk) : Bool :=
  match cs, ch.stream with
  | .all, _ => true
  | .stdout, .stdout => true
  | .stderr, .stderr => true
  | _, _ => false

/-- The data handler of `Workspace._handleDaemon` (line 204):
`condition.matcher === 'contains' && chunk.toString().includes(condition.value)`. -/
def conditionMatches (c : LogsCondition) (ch : Chunk) : Bool :=
  onStream c.stdio ch && (c.matcher == "contains") && strContains ch.data c.value

/-- Minimum of a list of times. -/
def minTime : List Nat → Option Nat
  | [] => none
  | t :: rest =>
    match minTime rest with
    | none => some t
    | some m => some (min t m)

/-- The time of the earliest chunk matching a condition, if any. -/
def earliestMatch (chunks : List Chunk) (c : LogsCondition) : Option Nat :=
  minTime ((chunks.filter (conditionMatches c)).map (·.time))

/-- When one condition observable of `_handleDaemon` (lines 194-214)
resolves and how: the earliest matching chunk resolves it with the
condition type if it beats the timer set at `timeoutOf c` (line 200);
otherwise the timer fires a timeout error. -/
def conditionCandidate (chunks : List Chunk) (c : LogsCondition) :
    Nat × RaceOutcome :=
  match earliestMatch chunks c with
  | some t =>
    if t < timeoutOf c then
      match c.condType with
      | .success => (t, .success)
      | .failure => (t, .conditionFailed)
    else (timeoutOf c, .timeout)
  | none => (timeoutOf c, .timeout)

/-- `race(...logsConditionsMet$, crashed$)` (line 216): the earliest
emission wins; equal times resolve in subscription order.  `none` means
no candidate at all, in which case the race never resolves. -/
def raceWinner : List (Nat × RaceOutcome) → Option (Nat × RaceOutcome)
  | [] => none
  | c :: rest =>
    some (rest.foldl (fun best x => if x.1 < best.1 then x else best) c)

/-- Outcome of a whole `_handleDaemon` call: how the race resolved and
whether `cmdProcess.kill()` was invoked (the `catchError` of lines
217-223 kills on every error path). -/
structure DaemonSupervision where
  outcome : RaceOutcome
  killed : Bool
deriving DecidableEq, Repr

/-- `Workspace._handleDaemon` (`src/core/src/workspace.ts` lines
177-232): race the log conditions against the crash watcher (`crashAt`
is the exit time of a process that dies before any condition resolves);
a success condition resolves the returned promise; every other outcome
kills the process and rejects. -/
def handleDaemon (conds : List LogsCondition) (chunks : List Chunk)
    (crashAt : Option Nat) : Option DaemonSupervision :=
  let candidates := conds.map (conditionCandidate chunks) ++
    (match crashAt with
     | some t => [(t, RaceOutcome.crashed)]
     | none => [])
  match raceWinner candidates with
  | none => none
  | some (_, RaceOutcome.success) => some ⟨RaceOutcome.success, false⟩
  | some (_, o) => some ⟨o, true⟩

/-- The fold picking the race winner preserves an all-timeout field. -/
theorem foldl_pick_timeout (l : List (Nat × RaceOutcome)) (init : Nat × RaceOutcome)
    (hinit : init.2 = RaceOutcome.timeout)
    (hall : ∀ x ∈ l, x.2 = RaceOutcome.timeout) :
    (l.foldl (fun best x => if x.1 < best.1 then x else best) init).2
      = RaceOutcome.timeout := by
  induction l generalizing init with
  | nil => exact hinit
  | cons x rest ih =>
    simp only [List.foldl_cons]
    apply ih
    · by_cases h : x.1 < init.1
      · rw [if_pos h]
        exact hall x (List.mem_cons_self _ _)
      · rw [if_neg h]
        exact hinit
    · intro y hy
      exact hall y (List.mem_cons_of_mem _ hy)

end Daemon

/-- Claim C7.  When no log condition of a daemon resolves before its
timer (whose duration defaults to 120000 ms when no timeout is
configured) and the process does not crash, the supervision rejects with
a timeout error after killing the child process; and a rejected task run
is reported by the scheduler as a `NODE_ERRORED` event for the
workspace. -/
theorem daemon_timeout_rejects_and_kills (c0 : LogsCondition)
    (cs : List LogsCondition) (chunks : List Chunk)
    (hto : ∀ c ∈ c0 :: cs, Daemon.conditionCandidate chunks c
        = (Daemon.timeoutOf c, RaceOutcome.timeout)) :
    (∃ sup, Daemon.handleDaemon (c0 :: cs) chunks none = some sup
        ∧ sup.outcome = RaceOutcome.timeout ∧ sup.killed = true)
    ∧ (∀ c : LogsCondition, c.timeout = none → Daemon.timeoutOf c = 120000)
    ∧ (∀ (t : RTarget) (outcome : RTarget → ExecStatus),
        t.affected = true → t.hasCommand = true → outcome t = ExecStatus.ko →
          RunCommandEvent.nodeErrored t.workspace
            ∈ (Runner.runStepBody .parallel outcome [t]).events) := by
  refine ⟨?_, ?_, ?_⟩
  · have hinit : (Daemon.conditionCandidate chunks c0).2 = RaceOutcome.timeout := by
      rw [hto c0 (List.mem_cons_self _ _)]
    have hall : ∀ x ∈ cs.map (Daemon.conditionCandidate chunks),
        x.2 = RaceOutcome.timeout := by
      intro x hx
      obtain ⟨c, hc, hcx⟩ := List.mem_map.mp hx
      rw [← hcx, hto c (List.mem_cons_of_mem _ hc)]
    have hw := Daemon.foldl_pick_timeout (cs.map (Daemon.conditionCandidate chunks))
      (Daemon.conditionCandidate chunks c0) hinit hall
    refine ⟨⟨RaceOutcome.timeout, true⟩, ?_, rfl, rfl⟩
    unfold Daemon.handleDaemon
    simp only [List.map_cons, List.append_nil, Daemon.raceWinner]
    rcases hfold : (cs.map (Daemon.conditionCandidate chunks)).foldl
        (fun best x => if x.1 < best.1 then x else best)
        (Daemon.conditionCandidate chunks c0) with ⟨tw, ow⟩
    rw [hfold] at hw
    cases hw
    rw [hfold]
  · intro c hc
    unfold Daemon.timeoutOf
    rw [hc]
    decide
  · intro t outcome ha hc hko
    have hx : t.affected && t.hasCommand := by rw [ha, hc]; rfl
    simp only [Runner.runStepBody, hx, if_true, hko]
    exact List.mem_cons_of_mem _ (List.mem_cons_self _ _)

/-- Witness for claim C7: one success condition listening for `ready` on
stdout with no configured timeout, no output, no crash. -/
theorem daemon_timeout_rejects_and_kills_witness :
    (∃ sup, Daemon.handleDaemon
        [⟨.stdout, "contains", "ready", .success, none⟩] [] none = some sup
        ∧ sup.outcome = RaceOutcome.timeout ∧ sup.killed = true)
    ∧ Daemon.timeoutOf ⟨.stdout, "contains", "ready", .success, none⟩ = 120000 := by
  have h := daemon_timeout_rejects_and_kills
    ⟨.stdout, "contains", "ready", .success, none⟩ [] [] (by decide)
  exact ⟨h.1, h.2.1 ⟨.stdout, "contains", "ready", .success, none⟩ rfl⟩

/-- Observable state of a `Watcher` (`src/core/src/watcher.ts`, final
version, lines 60-102): the FS handles created so far (numbered in
creation order), the handles that have been closed, the single handle
retained by `this._watcher`, the generation of the current
`this._events$` subject, and the generations whose subject was ever
completed (the source never completes a subject, it only replaces it). -/
structure WatcherSim where
  nextHandle : Nat
  created : List Nat
  closedHandles : List Nat
  watcher : Option Nat
  subjectGen : Nat
  completedGens : List Nat
deriving DecidableEq, Repr

namespace Watcher

/-- A freshly constructed `Watcher`. -/
def initSim : WatcherSim := ⟨0, [], [], none, 0, []⟩

/-- `Watcher.unwatch` (`src/core/src/watcher.ts` lines 98-101):
`this._watcher?.close()` closes the one retained handle, if any, and
`this._events$ = new Subject()` replaces the subject with a fresh
generation; the previous subject is never completed. -/
def unwatch (s : WatcherSim) : WatcherSim :=
  { s with
    closedHandles :=
      match s.watcher with
      | some h => s.closedHandles ++ [h]
      | none => s.closedHandles,
    subjectGen := s.subjectGen + 1 }

/-- One iteration of the nested `forEach` loops of `Watcher.watch`
(lines 74-85): `this._watcher = watch(glob).on(..)` creates a fresh FS
handle and overwrites the single retained reference. -/
def subscribePattern (s : WatcherSim) : WatcherSim :=
  { s with
    nextHandle := s.nextHandle + 1,
    created := s.created ++ [s.nextHandle],
    watcher := some s.nextHandle }

/-- `Watcher.watch` (lines 71-96): first `this.unwatch()`, then one FS
watch per glob pattern of every target; `pats` is the flattened pattern
list. -/
def watch (pats : List String) (s : WatcherSim) : WatcherSim :=
  pats.foldl (fun s2 _ => subscribePattern s2) (unwatch s)

/-- Subscribing patterns closes no handle. -/
theorem foldl_subscribe_closed :
    ∀ (pats : List String) (s : WatcherSim),
      (pats.foldl (fun s2 _ => subscribePattern s2) s).closedHandles
        = s.closedHandles := by
  intro pats
  induction pats with
  | nil => intro s; rfl
  | cons p rest ih =>
    intro s
    rw [List.foldl_cons, ih]
    rfl

/-- Subscribing patterns completes no subject. -/
theorem foldl_subscribe_completed :
    ∀ (pats : List String) (s : WatcherSim),
      (pats.foldl (fun s2 _ => subscribePattern s2) s).completedGens
        = s.completedGens := by
  intro pats
  induction pats with
  | nil => intro s; rfl
  | cons p rest ih =>
    intro s
    rw [List.foldl_cons, ih]
    rfl

/-- Subscribing patterns does not change the subject generation. -/
theorem foldl_subscribe_subjectGen :
    ∀ (pats : List String) (s : WatcherSim),
      (pats.foldl (fun s2 _ => subscribePattern s2) s).subjectGen
        = s.subjectGen := by
  intro pats
  induction pats with
  | nil => intro s; rfl
  | cons p rest ih =>
    intro s
    rw [List.foldl_cons, ih]
    rfl

/-- Once a handle is retained, subscribing more patterns always retains
some handle. -/
theorem foldl_subscribe_watcher_some :
    ∀ (pats : List String) (s : WatcherSim) (h : Nat), s.watcher = some h →
      ∃ h2, (pats.foldl (fun s2 _ => subscribePattern s2) s).watcher = some h2 := by
  intro pats
  induction pats with
  | nil => intro s h hs; exact ⟨h, hs⟩
  | cons p rest ih =>
    intro s h _
    rw [List.foldl_cons]
    exact ih (subscribePattern s) s.nextHandle rfl

/-- Counterexample for claim C8: after watching two patterns, the first
FS handle created by `watch()` is never closed by `unwatch()` (only the
last retained one is), and no subject generation is ever completed — the
event stream is replaced, not terminated. -/
theorem watcher_unwatch_leaks_first_handle :
    0 ∈ (watch ["src/a", "src/b"] initSim).created
    ∧ 0 ∉ (unwatch (watch ["src/a", "src/b"] initSim)).closedHandles
    ∧ (unwatch (watch ["src/a", "src/b"] initSim)).completedGens = [] := by
  decide

/-- Claim C8 amended: after `watch()` subscribed at least one pattern,
`unwatch()` closes exactly the one handle the Watcher retains (the last
created one; handles of earlier patterns are not closed), swaps in a
fresh subject generation, and never completes any subject. -/
theorem watcher_unwatch_closes_only_retained_handle (p : String) (ps : List String) :
    ∃ h, (watch (p :: ps) initSim).watcher = some h
      ∧ (unwatch (watch (p :: ps) initSim)).closedHandles
          = (watch (p :: ps) initSim).closedHandles ++ [h]
      ∧ (unwatch (watch (p :: ps) initSim)).subjectGen
          = (watch (p :: ps) initSim).subjectGen + 1
      ∧ (unwatch (watch (p :: ps) initSim)).completedGens = [] := by
  obtain ⟨h, hh⟩ := foldl_subscribe_watcher_some ps
    (subscribePattern (unwatch initSim)) 0 rfl
  have hw : (watch (p :: ps) initSim).watcher = some h := by
    unfold watch
    rw [List.foldl_cons]
    exact hh
  refine ⟨h, hw, ?_, rfl, ?_⟩
  · unfold unwatch
    rw [hw]
  · show (unwatch (watch (p :: ps) initSim)).completedGens = []
    have h1 : (watch (p :: ps) initSim).completedGens = [] := by
      unfold watch
      rw [List.foldl_cons, foldl_subscribe_completed]
      rfl
    unfold unwatch
    exact h1

end Watcher

end Centipod
